import Mathlib

/-!
Shallow embedding of the container-lifecycle orchestration core of the
multi-project server (TypeScript sources: `src/services/project-manager.ts`,
`src/services/storage-manager.ts`, the Docker runtime adapter, and the
credentials manager).  Pure data and control flow are translated directly;
external effects (Docker API calls, filesystem reads/writes, the bootstrap
exec inside the container) are represented by explicit outcome oracles passed
as arguments, so every function here is total and executable.
-/

namespace MultiProjectServer

/-- Embedding of `ProjectStatus` from `src/types/index.ts`:
`'creating' | 'running' | 'stopped' | 'error' | 'deleted'`. -/
inductive ProjectStatus
  | creating
  | running
  | stopped
  | error
  | deleted
deriving DecidableEq, Repr

/-- The `Project` record from `src/types/index.ts`, restricted to the fields
the orchestration logic reads or writes.  `updatedAt` is modelled as an
abstract clock tick (`Nat`). -/
structure Project where
  id : String
  name : String
  slug : String
  status : ProjectStatus
  containerName : String
  port : Nat
  domain : String
  updatedAt : Nat
deriving DecidableEq, Repr

/-- The catalog of persisted project records (`metadata.projects` in
`storage-manager.ts`, a record keyed by project id; modelled as a list of
records with the key stored inside each record). -/
abbrev Catalog := List Project

/-- Embedding of `StorageManager.getProject`: look the record up by id. -/
def getProject (pid : String) (cat : Catalog) : Option Project :=
  cat.find? (fun p => p.id = pid)

/-- Embedding of `StorageManager.getProjectBySlug`:
`Object.values(this.metadata.projects).find((p) => p.slug === slug)`.
Note: the source applies no status filter — soft-deleted records are found
too. -/
def getProjectBySlug (slug : String) (cat : Catalog) : Option Project :=
  cat.find? (fun p => p.slug = slug)

/-- Embedding of `StorageManager.saveProject`: upsert by id
(`this.metadata.projects[project.id] = {...}`).  Record keys are unique, so
assignment replaces the (unique) record with that id in place, or appends a
record under a new key. -/
def saveProject (p : Project) : Catalog → Catalog
  | [] => [p]
  | q :: rest => if q.id = p.id then p :: rest else q :: saveProject p rest

/-! ## C10: memory-limit translation (`parseMemoryLimit` in the Docker
runtime adapter)

```ts
function parseMemoryLimit(limit: string): number {
  const match = limit.match(/^(\d+)([kmg]?)$/i);
  if (!match) return 256 * 1024 * 1024; // Default 256MB
  const value = parseInt(match[1]);
  const unit = match[2].toLowerCase();
  switch (unit) {
    case 'k': return value * 1024;
    case 'm': return value * 1024 * 1024;
    case 'g': return value * 1024 * 1024 * 1024;
    default: return value;
  }
}
```
-/

/-- Numeric value of a string of decimal digits (`parseInt` on the digit
group captured by `(\d+)`). -/
def digitsToNat (ds : List Char) : Nat :=
  ds.foldl (fun acc c => acc * 10 + (c.toNat - '0'.toNat)) 0

/-- Byte multiplier of the optional `[kmg]` suffix, case-insensitive
(the `/i` flag); `none` means the character is not a legal suffix. -/
def suffixMult (c : Char) : Option Nat :=
  if c = 'k' ∨ c = 'K' then some 1024
  else if c = 'm' ∨ c = 'M' then some (1024 * 1024)
  else if c = 'g' ∨ c = 'G' then some (1024 * 1024 * 1024)
  else none

/-- The regex match `^(\d+)([kmg]?)$/i`: a non-empty digit group followed by
at most one suffix character.  Returns the digit value and the multiplier on
a match. -/
def memMatch (cs : List Char) : Option (Nat × Nat) :=
  let ds := cs.takeWhile Char.isDigit
  let rest := cs.dropWhile Char.isDigit
  if ds = [] then none
  else
    match rest with
    | [] => some (digitsToNat ds, 1)
    | [c] => (suffixMult c).map (fun m => (digitsToNat ds, m))
    | _ => none

/-- Embedding of `parseMemoryLimit` from the Docker runtime adapter: total, and every
non-matching string falls back to the 256 MiB default. -/
def parseMemoryLimit (limit : String) : Nat :=
  match memMatch limit.data with
  | none => 256 * 1024 * 1024
  | some (v, m) => v * m

/-! ## C4: catalog startup load (`StorageManager.loadMetadata`)

```ts
private async loadMetadata(): Promise<void> {
  try {
    const data = await fs.readFile(this.metadataPath, 'utf-8');
    this.metadata = JSON.parse(data);
  } catch (error) {
    if ((error as { code?: string }).code === 'ENOENT') {
      logger.info('No existing metadata found, creating new');
      await this.saveMetadata();
    } else {
      throw error;
    }
  }
}
```

Filesystem reads/writes and JSON parsing are oracles.  A thrown error is
modelled by `JsError`, whose `isEnoent` field records whether `error.code ===
'ENOENT'`; a `JSON.parse` failure is a `SyntaxError`, which never carries the
`ENOENT` code. -/

/-- A thrown JavaScript error, reduced to the only attribute the code
inspects: whether `error.code === 'ENOENT'`. -/
structure JsError where
  isEnoent : Bool
deriving DecidableEq, Repr

/-- The parsed catalog file (`ProjectMetadata` in `storage-manager.ts`). -/
structure MetadataFile where
  projects : Catalog
deriving DecidableEq, Repr

/-- The fresh catalog the constructor installs (`{ projects: {}, ... }`). -/
def freshMetadata : MetadataFile := ⟨[]⟩

/-- Embedding of `StorageManager.loadMetadata`.  `read` is the outcome of
`fs.readFile`, `parse` the behaviour of `JSON.parse` on the file contents
(`none` = throws `SyntaxError`), `write` the outcome of the `saveMetadata`
call issued when initializing a fresh catalog. -/
def loadMetadata (read : Except JsError String)
    (parse : String → Option MetadataFile)
    (write : Except JsError Unit) : Except JsError MetadataFile :=
  match read with
  | .ok data =>
      match parse data with
      | some m => .ok m
      | none => .error ⟨false⟩
  | .error e =>
      if e.isEnoent then
        match write with
        | .ok _ => .ok freshMetadata
        | .error w => .error w
      else .error e

/-! ## Docker runtime adapter (`DockerManager`)

### C5: port reservation

```ts
private basePort = 8090;
private getNextAvailablePort(): number {
  let port = this.basePort;
  while (this.usedPorts.has(port)) {
    port++;
  }
  this.usedPorts.add(port);
  return port;
}
```

The `while` loop is embedded with a fuel argument; `usedPorts.size + 1`
steps always suffice (proved below), so `findFree` computes exactly what the
loop computes. -/

def basePort : Nat := 8090

/-- One step of the `while (this.usedPorts.has(port)) port++;` loop, run for
at most `fuel` iterations. -/
def findFreeAux : Nat → Finset Nat → Nat → Nat
  | 0, _, port => port
  | fuel + 1, used, port => if port ∈ used then findFreeAux fuel used (port + 1) else port

/-- The exit value of the scan loop starting at `port`. -/
def findFree (used : Finset Nat) (port : Nat) : Nat :=
  findFreeAux (used.card + 1) used port

/-- Embedding of `DockerManager.getNextAvailablePort`: returns the reserved port together
with the grown `usedPorts` set. -/
def getNextAvailablePort (used : Finset Nat) : Nat × Finset Nat :=
  let port := findFree used basePort
  (port, insert port used)

/-- A sequence of `n` successive reservations, returning the allocated ports
in order together with the final used-port set. -/
def allocPorts (used : Finset Nat) : Nat → List Nat × Finset Nat
  | 0 => ([], used)
  | n + 1 =>
      let r := getNextAvailablePort used
      let rest := allocPorts r.2 n
      (r.1 :: rest.1, rest.2)

/-! ### C2: container inspection and status reconciliation

`DockerManager.getContainerInfo` wraps `container.inspect()` in a
`try/catch` that returns `null` on *any* error (container missing, runtime
unreachable, stats failure); the returned record's `state` field is
`info.State.Running ? 'running' : 'stopped'`. -/

/-- The slice of `ContainerInfo` that reconciliation reads.  `running`
mirrors `info.State.Running`. -/
structure ContainerInfo where
  running : Bool
deriving DecidableEq, Repr

/-- The `state` field of the projection built by `getContainerInfo`:
`info.State.Running ? 'running' : 'stopped'`. -/
def ContainerInfo.state (c : ContainerInfo) : String :=
  if c.running then "running" else "stopped"

/-- Embedding of `DockerManager.getContainerInfo`: the `inspect` oracle gives the outcome
of the runtime inspection; every thrown error is caught and mapped to
`null`. -/
def getContainerInfo (inspect : Except JsError ContainerInfo) : Option ContainerInfo :=
  match inspect with
  | .ok info => some info
  | .error _ => none

/-- The status derived from the observed container state in the
reconciliation loop: no container ↦ `error`, state `running` ↦ `running`,
anything else ↦ `stopped`. -/
def observedStatus (info? : Option ContainerInfo) : ProjectStatus :=
  match info? with
  | none => .error
  | some info => if info.state = "running" then .running else .stopped

/-- Reconciliation of one project record
(`ProjectManager.syncProjectStatuses` loop body): skip `deleted` records,
map the observed container state to a status, and persist (second component
`true`) only when it differs from the recorded status. -/
def syncOne (inspect : String → Except JsError ContainerInfo) (now : Nat)
    (p : Project) : Project × Bool :=
  if p.status = .deleted then (p, false)
  else
    let newStatus := observedStatus (getContainerInfo (inspect p.containerName))
    if p.status ≠ newStatus then
      ({ p with status := newStatus, updatedAt := now }, true)
    else (p, false)

/-- Embedding of `ProjectManager.syncProjectStatuses`: reconcile every record of the
catalog snapshot, saving each corrected record back by id.  Total by
construction — an inspection failure becomes `error` status, never an
exception. -/
def syncProjectStatuses (inspect : String → Except JsError ContainerInfo)
    (now : Nat) (cat : Catalog) : Catalog :=
  cat.map (fun p => (syncOne inspect now p).1)

/-! ## Lifecycle orchestrator (`ProjectManager`)

Runtime calls are tracked in an explicit call trace so that "no stop or
start is issued" is a statement about the trace. -/

/-- A call issued to the container runtime. -/
inductive RtCall
  | stopC (name : String)
  | startC (name : String)
deriving DecidableEq, Repr

/-- Typed orchestrator errors (`new Error(...)` sites of
`project-manager.ts`; Docker errors keep an identity token so that
"re-raises the same error" is expressible). -/
inductive OrchErr
  | notFound (pid : String)
  | conflict (slug : String)
  | containerOp
  | backupFailed
  | docker (e : Nat)
deriving DecidableEq, Repr

/-- Outcome of one orchestrator operation: the returned value or thrown
error, the catalog after the operation, and the runtime calls issued. -/
structure OpResult (α : Type) where
  result : Except OrchErr α
  catalog : Catalog
  calls : List RtCall
deriving Repr

/-- Embedding of `ProjectManager.startProject`.  `startOk` is the outcome oracle of
`dockerManager.startContainer`.  An already-`running` project is returned
unchanged without any runtime call. -/
def startProject (startOk : Bool) (pid : String) (now : Nat)
    (cat : Catalog) : OpResult Project :=
  match getProject pid cat with
  | none => ⟨.error (.notFound pid), cat, []⟩
  | some p =>
      if p.status = .running then ⟨.ok p, cat, []⟩
      else if startOk then
        let p' := { p with status := ProjectStatus.running, updatedAt := now }
        ⟨.ok p', saveProject p' cat, [.startC p.containerName]⟩
      else ⟨.error .containerOp, cat, [.startC p.containerName]⟩

/-- Embedding of `ProjectManager.stopProject`, symmetric to `startProject`. -/
def stopProject (stopOk : Bool) (pid : String) (now : Nat)
    (cat : Catalog) : OpResult Project :=
  match getProject pid cat with
  | none => ⟨.error (.notFound pid), cat, []⟩
  | some p =>
      if p.status = .stopped then ⟨.ok p, cat, []⟩
      else if stopOk then
        let p' := { p with status := ProjectStatus.stopped, updatedAt := now }
        ⟨.ok p', saveProject p' cat, [.stopC p.containerName]⟩
      else ⟨.error .containerOp, cat, [.stopC p.containerName]⟩

/-- Embedding of `ProjectManager.createBackup`:

```ts
const wasRunning = project.status === 'running';
if (wasRunning) { await this.stopProject(projectId); }
try {
  const backup = await storageManager.createBackup(project);
  return backup;
} finally {
  if (wasRunning) { await this.startProject(projectId); }
}
```

`backupOk` is the outcome oracle of `storageManager.createBackup` (which
never touches the catalog).  JavaScript `try/finally` semantics: the
`finally` block runs on every exit path, and an exception thrown inside it
replaces the `try` outcome. -/
def createBackup (stopOk startOk backupOk : Bool) (pid : String) (now : Nat)
    (cat : Catalog) : OpResult Unit :=
  match getProject pid cat with
  | none => ⟨.error (.notFound pid), cat, []⟩
  | some p =>
      let wasRunning := p.status = ProjectStatus.running
      if wasRunning then
        let s := stopProject stopOk pid now cat
        match s.result with
        | .error e => ⟨.error e, s.catalog, s.calls⟩
        | .ok _ =>
            let tryRes : Except OrchErr Unit :=
              if backupOk then .ok () else .error .backupFailed
            let fin := startProject startOk pid now s.catalog
            let res : Except OrchErr Unit :=
              match fin.result with
              | .error e => .error e
              | .ok _ => tryRes
            ⟨res, fin.catalog, s.calls ++ fin.calls⟩
      else
        ⟨if backupOk then .ok () else .error .backupFailed, cat, []⟩

/-! ## Create workflow (`ProjectManager.createProject`, `part_001` version
with the bootstrap phase) -/

/-- Characters the slug regex `[^a-z0-9]` keeps after lowercasing. -/
def isSlugChar (c : Char) : Bool :=
  ('a' ≤ c ∧ c ≤ 'z') ∨ ('0' ≤ c ∧ c ≤ '9')

/-- Embedding of `.replace(/[^a-z0-9]+/g, '-')`: every maximal run of non-slug characters
becomes a single hyphen. -/
def collapseRuns : List Char → List Char
  | [] => []
  | c :: rest =>
      if isSlugChar c then c :: collapseRuns rest
      else '-' :: collapseRuns (rest.dropWhile (fun d => ! isSlugChar d))
termination_by l => l.length
decreasing_by
  · simp only [List.length_cons]; omega
  · simp only [List.length_cons]
    refine Nat.lt_succ_of_le ?_
    induction rest with
    | nil => simp
    | cons d ds ih =>
      cases hd : isSlugChar d with
      | true => simp [List.dropWhile_cons, hd]
      | false =>
        simp only [List.dropWhile_cons, hd, Bool.not_false, if_true, List.length_cons]
        exact le_trans ih (Nat.le_succ _)

/-- Embedding of `.replace(/^-|-$/g, '')`: drop one leading and one trailing hyphen.
(After `collapseRuns` there are no hyphen runs, so the global regex matches
at most once at each end.) -/
def trimEdgeHyphens (s : List Char) : List Char :=
  let s1 := if s.head? = some '-' then s.tail else s
  if s1.getLast? = some '-' then s1.dropLast else s1

/-- Embedding of `ProjectManager.generateSlug`: lowercase, collapse non-alphanumeric runs
to hyphens, trim edge hyphens, cap at 30 characters.  (`String.toLower`
lowercases ASCII letters; non-ASCII characters are collapsed to `-` either
way, so the result agrees with the JavaScript on the `[^a-z0-9]` filter.) -/
def generateSlug (name : String) : String :=
  ⟨(trimEdgeHyphens (collapseRuns name.toLower.data)).take 30⟩

/-- Embedding of `input.slug || this.generateSlug(input.name)` — JavaScript `||` treats
the empty string as falsy. -/
def resolvedSlug (slug? : Option String) (name : String) : String :=
  match slug? with
  | some s => if s = "" then generateSlug name else s
  | none => generateSlug name

/-- The bootstrap polling loop of `createProject` (`part_001`):

```ts
let retries = 10;
let isReady = false;
while (retries > 0 && !isReady) {
  try {
    await new Promise(resolve => setTimeout(resolve, 2000)); // fixed delay
    const output = await dockerManager.execInContainer(...);
    isReady = true;
  } catch (error) {
    retries--;
    if (retries === 0) { throw error; }
  }
}
```

`attempt i` is the outcome of the `i`-th exec (0-based); the pair returned
is (loop outcome, total number of attempts issued). -/
def bootstrapPoll (attempt : Nat → Except Nat Unit) : Nat → Nat → Except Nat Unit × Nat
  | k, 0 => (.ok (), k)
  | k, r + 1 =>
      match attempt k with
      | .ok _ => (.ok (), k + 1)
      | .error e => if r = 0 then (.error e, k + 1) else bootstrapPoll attempt (k + 1) r

/-- One vault record (`DatabaseCredentials` in `credentials-manager.ts`,
restricted to the identity fields). -/
structure Creds where
  projectId : String
  projectName : String
  projectSlug : String
  domain : String
  adminEmail : String
deriving DecidableEq, Repr

/-- The credential vault (`store.databases`, a record keyed by project
id). -/
abbrev Vault := List Creds

/-- Embedding of `CredentialsManager.storeCredentials`: upsert by project id. -/
def storeCredentials (c : Creds) : Vault → Vault
  | [] => [c]
  | d :: rest => if d.projectId = c.projectId then c :: rest else d :: storeCredentials c rest

/-- The configuration fields the orchestrator reads (`src/config/index.ts`);
defaults: `baseDomain = "localhost"`, `useHttps = false`. -/
structure Cfg where
  baseDomain : String
  useHttps : Bool
  adminEmail : String
deriving DecidableEq, Repr

/-- Result of `DockerManager.createContainer`. -/
structure ContainerCreateResult where
  containerName : String
  port : Nat
deriving DecidableEq, Repr

/-- Embedding of `CreateProjectInput`, restricted to the fields the workflow branches
on. -/
structure CreateProjectInput where
  name : String
  slug : Option String
deriving DecidableEq, Repr

/-- Outcome of `createProject`: returned project or thrown error, the
catalog and vault afterwards, and the number of bootstrap attempts
issued. -/
structure CreateOutcome where
  result : Except OrchErr Project
  catalog : Catalog
  vault : Vault
  attempts : Nat
deriving Repr

/-- Embedding of `ProjectManager.createProject` (`part_001`): slug resolution and
conflict check, initial save with status `creating`, image pull, container
creation, container start (any failure of these three sets status `error`,
persists, and re-raises the same error), then the best-effort bootstrap
phase whose failure is only logged.  `pull`/`create`/`start` are outcome
oracles of the corresponding Docker calls, `attempt` of the in-container
bootstrap execs. -/
def createProject (cfg : Cfg)
    (pull : Except Nat Unit) (create : Except Nat ContainerCreateResult)
    (start : Except Nat Unit) (attempt : Nat → Except Nat Unit)
    (input : CreateProjectInput) (newId : String) (now : Nat)
    (cat : Catalog) (vault : Vault) : CreateOutcome :=
  let slug := resolvedSlug input.slug input.name
  match getProjectBySlug slug cat with
  | some _ => ⟨.error (.conflict slug), cat, vault, 0⟩
  | none =>
      let project : Project :=
        { id := newId, name := input.name, slug := slug,
          status := .creating, containerName := "", port := 0,
          domain := slug ++ "." ++ cfg.baseDomain, updatedAt := now }
      let cat1 := saveProject project cat
      match pull with
      | .error e =>
          ⟨.error (.docker e),
            saveProject { project with status := ProjectStatus.error, updatedAt := now } cat1,
            vault, 0⟩
      | .ok _ =>
          match create with
          | .error e =>
              ⟨.error (.docker e),
                saveProject { project with status := ProjectStatus.error, updatedAt := now } cat1,
                vault, 0⟩
          | .ok cres =>
              let project2 :=
                { project with containerName := cres.containerName, port := cres.port }
              match start with
              | .error e =>
                  ⟨.error (.docker e),
                    saveProject { project2 with status := ProjectStatus.error, updatedAt := now }
                      cat1,
                    vault, 0⟩
              | .ok _ =>
                  let project3 :=
                    { project2 with status := ProjectStatus.running, updatedAt := now }
                  let cat2 := saveProject project3 cat1
                  match bootstrapPoll attempt 0 10 with
                  | (.ok _, n) =>
                      ⟨.ok project3, cat2,
                        storeCredentials
                          ⟨newId, input.name, slug, project3.domain, cfg.adminEmail⟩ vault, n⟩
                  | (.error _, n) => ⟨.ok project3, cat2, vault, n⟩

/-! ## C9: URL resolution (`getProjectUrl` / `getProjectAdminUrl`)

```ts
const protocol = config.useHttps ? 'https' : 'http';
if (project.domain && config.baseDomain !== 'localhost') {
  return `${protocol}://${project.domain}`;
}
return `http://localhost:${project.port}`;
```
-/

/-- Embedding of `ProjectManager.getProjectUrl`. -/
def getProjectUrl (cfg : Cfg) (pid : String) (cat : Catalog) : Except OrchErr String :=
  match getProject pid cat with
  | none => .error (.notFound pid)
  | some p =>
      let protocol := if cfg.useHttps then "https" else "http"
      if p.domain ≠ "" ∧ cfg.baseDomain ≠ "localhost" then
        .ok (protocol ++ "://" ++ p.domain)
      else
        .ok ("http://localhost:" ++ toString p.port)

/-- Embedding of `ProjectManager.getProjectAdminUrl`: the project URL with the fixed
admin suffix `/_/` appended. -/
def getProjectAdminUrl (cfg : Cfg) (pid : String) (cat : Catalog) : Except OrchErr String :=
  (getProjectUrl cfg pid cat).map (fun u => u ++ "/_/")

/-! # Theorems

Helper lemmas about the embedded operations, followed by one theorem per
claim. -/


theorem getProject_saveProject_self (p : Project) :
    ∀ cat : Catalog, getProject p.id (saveProject p cat) = some p := by
  intro cat
  induction cat with
  | nil => simp [getProject, saveProject]
  | cons q rest ih =>
    by_cases hq : q.id = p.id
    · simp [saveProject, hq, getProject]
    · simp only [saveProject, if_neg hq]
      simpa [getProject, List.find?_cons, hq] using ih

theorem getProject_saveProject_fresh (p : Project) :
    ∀ cat : Catalog, (∀ q ∈ cat, q.id ≠ p.id) → saveProject p cat = cat ++ [p] := by
  intro cat
  induction cat with
  | nil => simp [saveProject]
  | cons q rest ih =>
    intro h
    have hq : q.id ≠ p.id := h q (by simp)
    simp only [saveProject, if_neg hq, List.cons_append, List.cons.injEq, true_and]
    exact ih (fun r hr => h r (by simp [hr]))

theorem getProject_some_id (pid : String) (cat : Catalog) (p : Project)
    (h : getProject pid cat = some p) : p.id = pid := by
  have := List.find?_some h
  simpa using this

theorem filter_card_lt_of_mem (used : Finset Nat) (port : Nat) (h : port ∈ used) :
    (used.filter (fun x => port + 1 ≤ x)).card < (used.filter (fun x => port ≤ x)).card := by
  apply Finset.card_lt_card
  rw [Finset.ssubset_iff_of_subset]
  · exact ⟨port, Finset.mem_filter.mpr ⟨h, le_refl port⟩, by simp⟩
  · intro x hx
    rw [Finset.mem_filter] at hx ⊢
    exact ⟨hx.1, le_trans (Nat.le_succ port) hx.2⟩

theorem findFreeAux_spec :
    ∀ (fuel : Nat) (used : Finset Nat) (port : Nat),
      (used.filter (fun x => port ≤ x)).card < fuel →
      findFreeAux fuel used port ∉ used ∧ port ≤ findFreeAux fuel used port ∧
        ∀ q, port ≤ q → q ∉ used → findFreeAux fuel used port ≤ q := by
  intro fuel
  induction fuel with
  | zero => intro used port h; omega
  | succ f ih =>
    intro used port h
    by_cases hp : port ∈ used
    · have hlt : (used.filter (fun x => port + 1 ≤ x)).card < f := by
        have := filter_card_lt_of_mem used port hp
        omega
      obtain ⟨h1, h2, h3⟩ := ih used (port + 1) hlt
      refine ⟨by simpa [findFreeAux, hp] using h1, ?_, ?_⟩
      · simp only [findFreeAux, if_pos hp]
        omega
      · intro q hq hqn
        simp only [findFreeAux, if_pos hp]
        have : port + 1 ≤ q := by
          rcases Nat.eq_or_lt_of_le hq with rfl | hlt'
          · exact absurd hp hqn
          · omega
        exact h3 q this hqn
    · exact ⟨by simp [findFreeAux, hp], by simp [findFreeAux, hp], fun q hq _ => by
        simpa [findFreeAux, hp] using hq⟩

theorem findFree_spec (used : Finset Nat) (port : Nat) :
    findFree used port ∉ used ∧ port ≤ findFree used port ∧
      ∀ q, port ≤ q → q ∉ used → findFree used port ≤ q :=
  findFreeAux_spec (used.card + 1) used port
    (Nat.lt_succ_of_le (Finset.card_filter_le used _))

theorem allocPorts_not_mem (n : Nat) :
    ∀ (used : Finset Nat), (∀ x ∈ (allocPorts used n).1, x ∉ used) ∧
      ∀ x ∈ used, x ∈ (allocPorts used n).2 := by
  induction n with
  | zero => intro used; simp [allocPorts]
  | succ m ih =>
    intro used
    obtain ⟨ih1, ih2⟩ := ih (insert (findFree used basePort) used)
    constructor
    · intro x hx
      simp only [allocPorts, getNextAvailablePort, List.mem_cons] at hx
      rcases hx with rfl | hx
      · exact (findFree_spec used basePort).1
      · intro hmem
        exact ih1 x hx (Finset.mem_insert_of_mem hmem)
    · intro x hx
      simp only [allocPorts, getNextAvailablePort]
      exact ih2 x (Finset.mem_insert_of_mem hx)

theorem allocPorts_nodup (n : Nat) :
    ∀ (used : Finset Nat), ((allocPorts used n).1).Nodup := by
  induction n with
  | zero => intro used; simp [allocPorts]
  | succ m ih =>
    intro used
    simp only [allocPorts, getNextAvailablePort, List.nodup_cons]
    refine ⟨?_, ih _⟩
    intro hmem
    have := (allocPorts_not_mem m (insert (findFree used basePort) used)).1 _ hmem
    exact this (Finset.mem_insert_self _ _)

theorem findFree_of_range_image (k : Nat) :
    findFree ((Finset.range k).image (fun i => basePort + i)) basePort = basePort + k := by
  set used := (Finset.range k).image (fun i => basePort + i) with hused
  obtain ⟨h1, h2, h3⟩ := findFree_spec used basePort
  have hnot : basePort + k ∉ used := by
    simp [hused]
  have hle : findFree used basePort ≤ basePort + k := h3 _ (Nat.le_add_right _ _) hnot
  rcases Nat.lt_or_ge (findFree used basePort) (basePort + k) with hlt | hge
  · exfalso
    apply h1
    have hmem : findFree used basePort ∈ (Finset.range k).image (fun i => basePort + i) := by
      rw [Finset.mem_image]
      exact ⟨findFree used basePort - basePort, Finset.mem_range.mpr (by omega), by omega⟩
    rwa [← hused] at hmem
  · omega

theorem allocPorts_empty (n : Nat) :
    ∀ k, (allocPorts ((Finset.range k).image (fun i => basePort + i)) n).1 =
      (List.range n).map (fun i => basePort + k + i) := by
  induction n with
  | zero => intro k; simp [allocPorts]
  | succ m ih =>
    intro k
    simp only [allocPorts, getNextAvailablePort, findFree_of_range_image]
    have hins : insert (basePort + k) ((Finset.range k).image (fun i => basePort + i)) =
        (Finset.range (k + 1)).image (fun i => basePort + i) := by
      rw [Finset.range_succ, Finset.image_insert]
    rw [hins, ih (k + 1)]
    rw [List.range_succ_eq_map]
    simp only [List.map_cons, List.map_map]
    refine List.cons_eq_cons.mpr ⟨by omega, ?_⟩
    apply List.map_congr_left
    intro i _
    simp only [Function.comp_apply]
    omega



/-! ## C10 helper lemmas and theorem -/

theorem takeWhile_of_all (p : Char → Bool) :
    ∀ ds : List Char, (∀ c ∈ ds, p c = true) →
      ds.takeWhile p = ds ∧ ds.dropWhile p = [] := by
  intro ds
  induction ds with
  | nil => simp
  | cons c rest ih =>
    intro h
    have hc : p c = true := h c (by simp)
    have hr := ih (fun d hd => h d (by simp [hd]))
    simp [List.takeWhile_cons, List.dropWhile_cons, hc, hr.1, hr.2]

theorem takeWhile_append_stop (p : Char → Bool) (c : Char) (tl : List Char)
    (hc : p c = false) :
    ∀ ds : List Char, (∀ d ∈ ds, p d = true) →
      (ds ++ c :: tl).takeWhile p = ds ∧ (ds ++ c :: tl).dropWhile p = c :: tl := by
  intro ds
  induction ds with
  | nil => simp [List.takeWhile_cons, List.dropWhile_cons, hc]
  | cons d rest ih =>
    intro h
    have hd : p d = true := h d (by simp)
    have hr := ih (fun x hx => h x (by simp [hx]))
    simp [List.takeWhile_cons, List.dropWhile_cons, hd, hr.1, hr.2]

theorem suffixMult_not_digit (c : Char) (m : Nat) (h : suffixMult c = some m) :
    c.isDigit = false := by
  unfold suffixMult at h
  split_ifs at h with h1 h2 h3
  · rcases h1 with rfl | rfl <;> decide
  · rcases h2 with rfl | rfl <;> decide
  · rcases h3 with rfl | rfl <;> decide

theorem memMatch_digits (ds : List Char) (h0 : ds ≠ []) (h : ∀ c ∈ ds, c.isDigit = true) :
    memMatch ds = some (digitsToNat ds, 1) := by
  have hw := takeWhile_of_all Char.isDigit ds h
  unfold memMatch
  simp [hw.1, hw.2, h0]

theorem memMatch_digits_suffix (ds : List Char) (c : Char) (m : Nat)
    (h0 : ds ≠ []) (h : ∀ d ∈ ds, d.isDigit = true) (hc : suffixMult c = some m) :
    memMatch (ds ++ [c]) = some (digitsToNat ds, m) := by
  have hw := takeWhile_append_stop Char.isDigit c [] (suffixMult_not_digit c m hc) ds h
  unfold memMatch
  simp [hw.1, hw.2, h0, hc]

theorem memMatch_some_decomp (cs : List Char) (vm : Nat × Nat)
    (h : memMatch cs = some vm) :
    ∃ ds rest, cs = ds ++ rest ∧ ds ≠ [] ∧ (∀ c ∈ ds, c.isDigit = true) ∧
      (rest = [] ∨ ∃ c m, rest = [c] ∧ suffixMult c = some m) := by
  refine ⟨cs.takeWhile Char.isDigit, cs.dropWhile Char.isDigit,
    (List.takeWhile_append_dropWhile Char.isDigit cs).symm, ?_, ?_, ?_⟩
  · intro hnil
    unfold memMatch at h
    simp [hnil] at h
  · intro c hcmem
    exact List.mem_takeWhile_imp hcmem
  · unfold memMatch at h
    by_cases hnil : cs.takeWhile Char.isDigit = []
    · simp [hnil] at h
    · cases hr : cs.dropWhile Char.isDigit with
      | nil => exact Or.inl rfl
      | cons c tl =>
        cases tl with
        | nil =>
          simp only [hnil, if_false, hr] at h
          rcases Option.map_eq_some'.mp h with ⟨m, hm, _⟩
          exact Or.inr ⟨c, m, rfl, hm⟩
        | cons c2 tl2 =>
          simp [hnil, hr] at h

/-- C10: the memory-limit translation used by `createContainer` is total and
never throws: a non-empty string of digits with an optional case-insensitive
k/m/g suffix maps to value × 1024^n bytes (`"256m" ↦ 268435456`), and every
string not of that shape — empty, negative, fractional, or otherwise —
silently maps to the default 268435456 bytes. -/
theorem parseMemoryLimit_spec :
    parseMemoryLimit "256m" = 268435456 ∧
    (∀ ds : List Char, ds ≠ [] → (∀ c ∈ ds, c.isDigit = true) →
      parseMemoryLimit (String.mk ds) = digitsToNat ds ∧
      ∀ c m, suffixMult c = some m →
        parseMemoryLimit (String.mk (ds ++ [c])) = digitsToNat ds * m) ∧
    (∀ cs : List Char,
      (¬ ∃ ds rest, cs = ds ++ rest ∧ ds ≠ [] ∧ (∀ c ∈ ds, c.isDigit = true) ∧
        (rest = [] ∨ ∃ c m, rest = [c] ∧ suffixMult c = some m)) →
      parseMemoryLimit (String.mk cs) = 268435456) ∧
    parseMemoryLimit "" = 268435456 ∧ parseMemoryLimit "-5" = 268435456 ∧
    parseMemoryLimit "1.5g" = 268435456 := by
  refine ⟨by decide, ?_, ?_, by decide, by decide, by decide⟩
  · intro ds h0 h
    constructor
    · show parseMemoryLimit ⟨ds⟩ = digitsToNat ds
      unfold parseMemoryLimit
      rw [show (String.mk ds).data = ds from rfl, memMatch_digits ds h0 h]
      simp
    · intro c m hc
      unfold parseMemoryLimit
      rw [show (String.mk (ds ++ [c])).data = ds ++ [c] from rfl,
        memMatch_digits_suffix ds c m h0 h hc]
  · intro cs hno
    unfold parseMemoryLimit
    cases hm : memMatch (String.mk cs).data with
    | none => rfl
    | some vm =>
      exact absurd (memMatch_some_decomp cs vm (by simpa using hm)) hno

/-- Witness for C10 at the concrete input "256k". -/
theorem parseMemoryLimit_spec_witness :
    parseMemoryLimit (String.mk (['2', '5', '6'] ++ ['k'])) = 262144 := by
  have h := (parseMemoryLimit_spec.2.1 ['2', '5', '6'] (by decide) (by decide)).2
    'k' 1024 (by decide)
  rw [h]
  decide

/-! ## C4 counterexample, amended theorem, witness -/

/-- C4 (counterexample): a malformed — readable but unparseable — catalog
file is NOT treated as an empty catalog: `loadMetadata` rethrows the
`SyntaxError` instead of initializing fresh. -/
theorem loadMetadata_malformed_cx :
    loadMetadata (.ok "not json") (fun _ => none) (.ok ()) = .error ⟨false⟩ ∧
    loadMetadata (.ok "not json") (fun _ => none) (.ok ()) ≠ .ok freshMetadata :=
  ⟨rfl, fun h => Except.noConfusion h⟩

/-- C4 (amended): on catalog startup load, only a missing catalog file
(ENOENT) is treated as an empty catalog (initialize fresh, no error to the
caller, assuming the fresh save succeeds); a malformed (unparseable) file
and every other read failure propagate. -/
theorem loadMetadata_spec :
    ∀ (read : Except JsError String) (parse : String → Option MetadataFile)
      (write : Except JsError Unit),
      (∀ e : JsError, read = .error e → e.isEnoent = true → write = .ok () →
        loadMetadata read parse write = .ok freshMetadata) ∧
      (∀ s m, read = .ok s → parse s = some m →
        loadMetadata read parse write = .ok m) ∧
      (∀ s, read = .ok s → parse s = none →
        loadMetadata read parse write = .error ⟨false⟩) ∧
      (∀ e : JsError, read = .error e → e.isEnoent = false →
        loadMetadata read parse write = .error e) := by
  intro read parse write
  refine ⟨?_, ?_, ?_, ?_⟩
  · rintro e rfl he rfl
    simp [loadMetadata, he]
  · rintro s m rfl hp
    simp [loadMetadata, hp]
  · rintro s rfl hp
    simp [loadMetadata, hp]
  · rintro e rfl he
    simp [loadMetadata, he]

/-- Witness for C4 (amended) at a concrete missing-file load. -/
theorem loadMetadata_spec_witness :
    loadMetadata (.error ⟨true⟩) (fun _ => none) (.ok ()) = .ok freshMetadata :=
  (loadMetadata_spec (.error ⟨true⟩) (fun _ => none) (.ok ())).1 ⟨true⟩ rfl rfl rfl

/-! ## C9 counterexample, amended theorem, witness -/

/-- C9 (counterexample): with a non-default base domain ("example.com") but
`useHttps = false` (the configuration default), `getProjectUrl` returns an
`http://` URL for the project's domain, not `https://` as claimed. -/
theorem getProjectUrl_http_cx :
    ("example.com" : String) ≠ "localhost" ∧
    getProjectUrl ⟨"example.com", false, "admin@localhost"⟩ "p1"
      [⟨"p1", "Acme", "acme", .running, "pocketbase-acme", 8090,
        "acme.example.com", 0⟩] = .ok "http://acme.example.com" ∧
    ("http://acme.example.com" : String) ≠ "https://acme.example.com" :=
  ⟨by decide, rfl, by decide⟩

/-- C9 (amended): for every existing project, `getProjectUrl` returns
`<protocol>://<domain>` — where the protocol is `https` exactly when
`useHttps` is configured — whenever the project's domain is non-empty and
the configured base domain is not `localhost`, and
`http://localhost:<port>` otherwise; `getProjectAdminUrl` appends the fixed
admin suffix `/_/`. -/
theorem getProjectUrl_spec :
    ∀ (cfg : Cfg) (pid : String) (cat : Catalog) (p : Project),
      getProject pid cat = some p →
      (p.domain ≠ "" → cfg.baseDomain ≠ "localhost" →
        getProjectUrl cfg pid cat =
          .ok ((if cfg.useHttps then "https" else "http") ++ "://" ++ p.domain)) ∧
      (cfg.useHttps = true → p.domain ≠ "" → cfg.baseDomain ≠ "localhost" →
        getProjectUrl cfg pid cat = .ok ("https://" ++ p.domain)) ∧
      ((p.domain = "" ∨ cfg.baseDomain = "localhost") →
        getProjectUrl cfg pid cat = .ok ("http://localhost:" ++ toString p.port)) ∧
      (∀ u, getProjectUrl cfg pid cat = .ok u →
        getProjectAdminUrl cfg pid cat = .ok (u ++ "/_/")) := by
  intro cfg pid cat p h
  refine ⟨?_, ?_, ?_, ?_⟩
  · intro hd hb
    simp [getProjectUrl, h, hd, hb]
  · intro hh hd hb
    simp [getProjectUrl, h, hd, hb, hh]
  · intro hcase
    rcases hcase with hd | hb
    · simp [getProjectUrl, h, hd]
    · simp [getProjectUrl, h, hb]
  · intro u hu
    simp only [getProjectAdminUrl, hu]
    rfl

/-- Witness for C9 (amended) at a concrete HTTPS configuration. -/
theorem getProjectUrl_spec_witness :
    getProjectUrl ⟨"example.com", true, "admin@localhost"⟩ "p1"
      [⟨"p1", "Acme", "acme", .running, "pocketbase-acme", 8090,
        "acme.example.com", 0⟩] = .ok ("https://" ++ "acme.example.com") :=
  (getProjectUrl_spec ⟨"example.com", true, "admin@localhost"⟩ "p1"
    [⟨"p1", "Acme", "acme", .running, "pocketbase-acme", 8090,
      "acme.example.com", 0⟩]
    ⟨"p1", "Acme", "acme", .running, "pocketbase-acme", 8090,
      "acme.example.com", 0⟩ rfl).2.1 rfl (by decide) (by decide)


/-! ## C5 theorem and witness -/

/-- C5: port reservation returns the lowest integer ≥ the base port 8090 not
in the in-memory used-port set and adds it to the set; every reservation
sequence (from any seed) yields pairwise-distinct ports, and from an empty
seed the allocated sequence is exactly 8090, 8091, 8092, …, strictly
increasing. -/
theorem getNextAvailablePort_spec :
    (∀ used : Finset Nat,
      (getNextAvailablePort used).1 ∉ used ∧
      basePort ≤ (getNextAvailablePort used).1 ∧
      (∀ q, basePort ≤ q → q ∉ used → (getNextAvailablePort used).1 ≤ q) ∧
      (getNextAvailablePort used).2 = insert (getNextAvailablePort used).1 used) ∧
    (∀ (used : Finset Nat) (n : Nat), ((allocPorts used n).1).Nodup) ∧
    (∀ n : Nat, (allocPorts ∅ n).1 = (List.range n).map (fun i => basePort + i)) ∧
    (∀ n : Nat, ((allocPorts ∅ n).1).Sorted (· < ·)) := by
  have hempty : ∀ n : Nat,
      (allocPorts ∅ n).1 = (List.range n).map (fun i => basePort + i) := by
    intro n
    have h := allocPorts_empty n 0
    simp only [Finset.range_zero, Finset.image_empty] at h
    rw [h]
    apply List.map_congr_left
    intro i _
    omega
  refine ⟨?_, fun used n => allocPorts_nodup n used, hempty, ?_⟩
  · intro used
    obtain ⟨h1, h2, h3⟩ := findFree_spec used basePort
    exact ⟨h1, h2, h3, rfl⟩
  · intro n
    rw [hempty n]
    refine List.Pairwise.map _ ?_ (List.pairwise_lt_range n)
    intro a b hab
    omega

/-- Witness for C5: leastness applied at the concrete seed {8090}. -/
theorem getNextAvailablePort_spec_witness :
    (getNextAvailablePort {8090}).1 ≤ 8091 :=
  (getNextAvailablePort_spec.1 {8090}).2.2.1 8091 (by decide) (by decide)

/-! ## C2 helper lemmas, theorem, witness -/

theorem syncOne_of_not_deleted (inspect : String → Except JsError ContainerInfo)
    (now : Nat) (p : Project) (hnd : p.status ≠ ProjectStatus.deleted) :
    syncOne inspect now p =
      if p.status ≠ observedStatus (getContainerInfo (inspect p.containerName)) then
        ({ p with
            status := observedStatus (getContainerInfo (inspect p.containerName)),
            updatedAt := now }, true)
      else (p, false) := by
  unfold syncOne
  rw [if_neg hnd]

theorem observedStatus_error (e : JsError) :
    observedStatus (getContainerInfo (.error e)) = ProjectStatus.error := rfl

theorem observedStatus_running (info : ContainerInfo) (h : info.running = true) :
    observedStatus (getContainerInfo (.ok info)) = ProjectStatus.running := by
  simp [observedStatus, getContainerInfo, ContainerInfo.state, h]

theorem observedStatus_stopped (info : ContainerInfo) (h : info.running = false) :
    observedStatus (getContainerInfo (.ok info)) = ProjectStatus.stopped := by
  simp only [observedStatus, getContainerInfo, ContainerInfo.state, h, if_false]
  decide

theorem syncOne_status_eq (inspect : String → Except JsError ContainerInfo)
    (now : Nat) (p : Project) (hnd : p.status ≠ ProjectStatus.deleted) :
    (syncOne inspect now p).1.status =
      observedStatus (getContainerInfo (inspect p.containerName)) := by
  rw [syncOne_of_not_deleted inspect now p hnd]
  split_ifs with hne
  · rfl
  · simpa using not_not.mp hne

/-- C2: status reconciliation maps, for every non-deleted project, the
observed container state to a persisted status — no container found
(inspection returns null, including on any inspection error) ↦ `error`,
container running ↦ `running`, any other state ↦ `stopped` —, persists
(saved flag `true`) exactly when the status changed, skips `deleted`
projects unchanged, and is a total function of the inspection oracle, so an
inspection failure becomes a status and is never propagated as an
exception. -/
theorem syncProjectStatuses_spec :
    ∀ (inspect : String → Except JsError ContainerInfo) (now : Nat),
      (∀ p : Project, p.status = ProjectStatus.deleted →
        syncOne inspect now p = (p, false)) ∧
      (∀ (p : Project) (e : JsError), p.status ≠ ProjectStatus.deleted →
        inspect p.containerName = .error e →
        (syncOne inspect now p).1.status = ProjectStatus.error) ∧
      (∀ (p : Project) (info : ContainerInfo), p.status ≠ ProjectStatus.deleted →
        inspect p.containerName = .ok info → info.running = true →
        (syncOne inspect now p).1.status = ProjectStatus.running) ∧
      (∀ (p : Project) (info : ContainerInfo), p.status ≠ ProjectStatus.deleted →
        inspect p.containerName = .ok info → info.running = false →
        (syncOne inspect now p).1.status = ProjectStatus.stopped) ∧
      (∀ p : Project, ((syncOne inspect now p).2 = true ↔
        (syncOne inspect now p).1.status ≠ p.status)) ∧
      (∀ p : Project, (syncOne inspect now p).2 = false →
        (syncOne inspect now p).1 = p) ∧
      (∀ p : Project, (syncOne inspect now p).2 = true →
        (syncOne inspect now p).1 =
          { p with status := (syncOne inspect now p).1.status, updatedAt := now }) ∧
      (∀ (cat : Catalog) (p : Project), p ∈ cat →
        (syncOne inspect now p).1 ∈ syncProjectStatuses inspect now cat) := by
  intro inspect now
  refine ⟨?_, ?_, ?_, ?_, ?_, ?_, ?_, ?_⟩
  · intro p h
    simp [syncOne, h]
  · intro p e hnd hins
    rw [syncOne_status_eq inspect now p hnd, hins, observedStatus_error]
  · intro p info hnd hins hr
    rw [syncOne_status_eq inspect now p hnd, hins, observedStatus_running info hr]
  · intro p info hnd hins hr
    rw [syncOne_status_eq inspect now p hnd, hins, observedStatus_stopped info hr]
  · intro p
    by_cases hnd : p.status = ProjectStatus.deleted
    · simp [syncOne, hnd]
    · rw [syncOne_of_not_deleted inspect now p hnd]
      split_ifs with hne
      · simpa using Ne.symm hne
      · simp
  · intro p
    by_cases hnd : p.status = ProjectStatus.deleted
    · simp [syncOne, hnd]
    · rw [syncOne_of_not_deleted inspect now p hnd]
      split_ifs with hne
      · simp
      · simp
  · intro p
    by_cases hnd : p.status = ProjectStatus.deleted
    · simp [syncOne, hnd]
    · rw [syncOne_of_not_deleted inspect now p hnd]
      split_ifs with hne
      · simp
      · simp
  · intro cat p hp
    exact List.mem_map_of_mem _ hp

/-- Witness for C2 at a concrete failing inspection. -/
theorem syncProjectStatuses_spec_witness :
    (syncOne (fun _ => .error ⟨false⟩) 7
      ⟨"p1", "Acme", "acme", .running, "pocketbase-acme", 8090, "d", 0⟩).1.status =
      ProjectStatus.error :=
  (syncProjectStatuses_spec (fun _ => .error ⟨false⟩) 7).2.1
    ⟨"p1", "Acme", "acme", .running, "pocketbase-acme", 8090, "d", 0⟩ ⟨false⟩
    (by decide) rfl

/-! ## C8 theorem and witness -/

/-- C8: `stopProject` on a project already recorded `stopped` returns the
unchanged record without issuing any runtime stop call (catalog and
`updatedAt` untouched, empty call trace), and `startProject` on a project
already recorded `running` likewise: stop and start are idempotent against
their own target status. -/
theorem startStop_idempotent :
    ∀ (ok : Bool) (pid : String) (now : Nat) (cat : Catalog) (p : Project),
      getProject pid cat = some p →
      (p.status = ProjectStatus.stopped →
        stopProject ok pid now cat = ⟨.ok p, cat, []⟩) ∧
      (p.status = ProjectStatus.running →
        startProject ok pid now cat = ⟨.ok p, cat, []⟩) := by
  intro ok pid now cat p h
  constructor
  · intro hs
    simp [stopProject, h, hs]
  · intro hs
    simp [startProject, h, hs]

/-- Witness for C8 at a concrete stopped project. -/
theorem startStop_idempotent_witness :
    stopProject true "p1" 9
      [⟨"p1", "Acme", "acme", .stopped, "pocketbase-acme", 8090, "d", 3⟩] =
      ⟨.ok ⟨"p1", "Acme", "acme", .stopped, "pocketbase-acme", 8090, "d", 3⟩,
        [⟨"p1", "Acme", "acme", .stopped, "pocketbase-acme", 8090, "d", 3⟩], []⟩ :=
  (startStop_idempotent true "p1" 9
    [⟨"p1", "Acme", "acme", .stopped, "pocketbase-acme", 8090, "d", 3⟩]
    ⟨"p1", "Acme", "acme", .stopped, "pocketbase-acme", 8090, "d", 3⟩ rfl).1 rfl


/-! ## C1 theorem and witness -/

/-- C1: for a project recorded `running` when `createBackup` is called (with
the runtime stop/start succeeding), the orchestrator stops it first, runs
the backup, and restarts it in the `finally` block on every exit path — the
persisted status is `running` again after the call and exactly one stop
followed by one start is issued, even when backup creation throws (in which
case the backup error still propagates); for a project not recorded
`running`, no stop or start call is issued and the catalog is untouched. -/
theorem createBackup_running_restarts :
    ∀ (backupOk : Bool) (pid : String) (now : Nat) (cat : Catalog) (p : Project),
      getProject pid cat = some p →
      (p.status = ProjectStatus.running →
        (∃ q, getProject pid (createBackup true true backupOk pid now cat).catalog = some q ∧
          q.status = ProjectStatus.running) ∧
        (createBackup true true backupOk pid now cat).calls =
          [RtCall.stopC p.containerName, RtCall.startC p.containerName] ∧
        (backupOk = true → (createBackup true true backupOk pid now cat).result = .ok ()) ∧
        (backupOk = false →
          (createBackup true true backupOk pid now cat).result = .error .backupFailed)) ∧
      (p.status ≠ ProjectStatus.running →
        ∀ stopOk startOk : Bool,
          (createBackup stopOk startOk backupOk pid now cat).calls = [] ∧
          (createBackup stopOk startOk backupOk pid now cat).catalog = cat) := by
  intro backupOk pid now cat p h
  have hid : p.id = pid := getProject_some_id pid cat p h
  subst hid
  constructor
  · intro hs
    have hnstop : p.status ≠ ProjectStatus.stopped := by rw [hs]; decide
    have hstop : stopProject true p.id now cat =
        ⟨.ok { p with status := ProjectStatus.stopped, updatedAt := now },
          saveProject { p with status := ProjectStatus.stopped, updatedAt := now } cat,
          [RtCall.stopC p.containerName]⟩ := by
      simp [stopProject, h, hnstop]
    have hg1 : getProject p.id
        (saveProject { p with status := ProjectStatus.stopped, updatedAt := now } cat) =
        some { p with status := ProjectStatus.stopped, updatedAt := now } :=
      getProject_saveProject_self
        { p with status := ProjectStatus.stopped, updatedAt := now } cat
    have hstart : startProject true p.id now
        (saveProject { p with status := ProjectStatus.stopped, updatedAt := now } cat) =
        ⟨.ok { p with status := ProjectStatus.running, updatedAt := now },
          saveProject { p with status := ProjectStatus.running, updatedAt := now }
            (saveProject { p with status := ProjectStatus.stopped, updatedAt := now } cat),
          [RtCall.startC p.containerName]⟩ := by
      simp [startProject, hg1]
    have hcb : createBackup true true backupOk p.id now cat =
        ⟨if backupOk then .ok () else .error .backupFailed,
          saveProject { p with status := ProjectStatus.running, updatedAt := now }
            (saveProject { p with status := ProjectStatus.stopped, updatedAt := now } cat),
          [RtCall.stopC p.containerName, RtCall.startC p.containerName]⟩ := by
      simp [createBackup, h, hs, hstop, hstart]
    refine ⟨⟨{ p with status := ProjectStatus.running, updatedAt := now }, ?_, rfl⟩, ?_, ?_, ?_⟩
    · rw [hcb]
      exact getProject_saveProject_self
        { p with status := ProjectStatus.running, updatedAt := now }
        (saveProject { p with status := ProjectStatus.stopped, updatedAt := now } cat)
    · rw [hcb]
    · intro hb
      rw [hcb, if_pos hb]
    · intro hb
      rw [hcb, if_neg (by rw [hb]; exact Bool.false_ne_true)]
  · intro hns stopOk startOk
    constructor
    · simp [createBackup, h, hns]
    · simp [createBackup, h, hns]

/-- Witness for C1: a concrete running project with a failing backup — the
trace still shows stop then start. -/
theorem createBackup_running_restarts_witness :
    (createBackup true true false "p1" 9
      [⟨"p1", "Acme", "acme", .running, "pb-acme", 8090, "d", 0⟩]).calls =
      [RtCall.stopC "pb-acme", RtCall.startC "pb-acme"] :=
  ((createBackup_running_restarts false "p1" 9
    [⟨"p1", "Acme", "acme", .running, "pb-acme", 8090, "d", 0⟩]
    ⟨"p1", "Acme", "acme", .running, "pb-acme", 8090, "d", 0⟩ rfl).1 rfl).2.1


/-! ## createProject helper lemmas (C3, C6, C7) -/

theorem saveProject_append_same_id (x p : Project) (hxp : x.id = p.id) :
    ∀ cat : Catalog, (∀ q ∈ cat, q.id ≠ p.id) →
      saveProject x (cat ++ [p]) = cat ++ [x] := by
  intro cat
  induction cat with
  | nil =>
    intro _
    simp [saveProject, hxp.symm]
  | cons q rest ih =>
    intro h
    have hq : q.id ≠ x.id := by rw [hxp]; exact h q (by simp)
    simp only [List.cons_append, saveProject, if_neg hq, List.cons.injEq, true_and]
    exact ih (fun r hr => h r (by simp [hr]))

theorem bootstrapPoll_count_le (attempt : Nat → Except Nat Unit) :
    ∀ (r k : Nat), (bootstrapPoll attempt k r).2 ≤ k + r := by
  intro r
  induction r with
  | zero =>
    intro k
    simp [bootstrapPoll]
  | succ r ih =>
    intro k
    cases ha : attempt k with
    | ok u =>
      have hh : bootstrapPoll attempt k (r + 1) = (.ok (), k + 1) := by
        simp [bootstrapPoll, ha]
      rw [hh]
      show k + 1 ≤ k + (r + 1)
      omega
    | error e =>
      by_cases hr : r = 0
      · subst hr
        have hh : bootstrapPoll attempt k 1 = (.error e, k + 1) := by
          simp [bootstrapPoll, ha]
        rw [hh]
      · have hh : bootstrapPoll attempt k (r + 1) = bootstrapPoll attempt (k + 1) r := by
          simp [bootstrapPoll, ha, hr]
        rw [hh]
        have := ih (k + 1)
        omega

theorem bootstrapPoll_all_fail (attempt : Nat → Except Nat Unit) :
    ∀ (r k : Nat), 0 < r → (∀ i, k ≤ i → i < k + r → ∃ e, attempt i = .error e) →
      ∃ e, bootstrapPoll attempt k r = (.error e, k + r) := by
  intro r
  induction r with
  | zero =>
    intro k h0 _
    exact absurd h0 (by omega)
  | succ r ih =>
    intro k _ hall
    obtain ⟨e, he⟩ := hall k (le_refl k) (by omega)
    by_cases hr : r = 0
    · subst hr
      exact ⟨e, by simp [bootstrapPoll, he]⟩
    · obtain ⟨e2, he2⟩ := ih (k + 1) (Nat.pos_of_ne_zero hr)
        (fun i h1 h2 => hall i (by omega) (by omega))
      refine ⟨e2, ?_⟩
      have hh : bootstrapPoll attempt k (r + 1) = bootstrapPoll attempt (k + 1) r := by
        simp [bootstrapPoll, he, hr]
      rw [hh, he2]
      have harith : k + 1 + r = k + (r + 1) := by omega
      rw [harith]

theorem bootstrapPoll_first_ok (attempt : Nat → Except Nat Unit) :
    ∀ (j r k : Nat), j < r → attempt (k + j) = .ok () →
      (∀ i, i < j → ∃ e, attempt (k + i) = .error e) →
      bootstrapPoll attempt k r = (.ok (), k + j + 1) := by
  intro j
  induction j with
  | zero =>
    intro r k hjr hok _
    obtain ⟨r2, rfl⟩ : ∃ r2, r = r2 + 1 := ⟨r - 1, by omega⟩
    simp only [Nat.add_zero] at hok
    simp [bootstrapPoll, hok]
  | succ j ih =>
    intro r k hjr hok hfail
    obtain ⟨r2, rfl⟩ : ∃ r2, r = r2 + 1 := ⟨r - 1, by omega⟩
    obtain ⟨e, he⟩ := hfail 0 (by omega)
    simp only [Nat.add_zero] at he
    have hr2 : r2 ≠ 0 := by omega
    have heq : bootstrapPoll attempt k (r2 + 1) = bootstrapPoll attempt (k + 1) r2 := by
      simp [bootstrapPoll, he, hr2]
    rw [heq]
    have hok2 : attempt (k + 1 + j) = .ok () := by
      have harith : k + 1 + j = k + (j + 1) := by omega
      rw [harith]
      exact hok
    have hfail2 : ∀ i, i < j → ∃ e2, attempt (k + 1 + i) = .error e2 := by
      intro i hi
      obtain ⟨e2, he2⟩ := hfail (i + 1) (by omega)
      refine ⟨e2, ?_⟩
      have harith : k + 1 + i = k + (i + 1) := by omega
      rw [harith]
      exact he2
    rw [ih r2 (k + 1) (by omega) hok2 hfail2]
    have harith : k + 1 + j + 1 = k + (j + 1) + 1 := by omega
    rw [harith]

theorem createProject_shape (cfg : Cfg) (pull : Except Nat Unit)
    (create : Except Nat ContainerCreateResult) (start : Except Nat Unit)
    (attempt : Nat → Except Nat Unit) (input : CreateProjectInput)
    (newId : String) (now : Nat) (cat : Catalog) (vault : Vault)
    (hno : getProjectBySlug (resolvedSlug input.slug input.name) cat = none) :
    ∃ X : Project, X.id = newId ∧ X.slug = resolvedSlug input.slug input.name ∧
      (createProject cfg pull create start attempt input newId now cat vault).catalog =
        saveProject X (saveProject
          { id := newId, name := input.name, slug := resolvedSlug input.slug input.name,
            status := ProjectStatus.creating, containerName := "", port := 0,
            domain := resolvedSlug input.slug input.name ++ "." ++ cfg.baseDomain,
            updatedAt := now } cat) ∧
      getProject newId
        (createProject cfg pull create start attempt input newId now cat vault).catalog =
          some X ∧
      ((∃ e, (createProject cfg pull create start attempt input newId now cat vault).result =
          .error (.docker e)) ∧ X.status = ProjectStatus.error ∨
        (createProject cfg pull create start attempt input newId now cat vault).result =
          .ok X ∧ X.status = ProjectStatus.running) := by
  have hself : ∀ (X : Project) (c : Catalog), X.id = newId →
      getProject newId (saveProject X c) = some X := by
    intro X c hX
    have hy := getProject_saveProject_self X c
    rwa [hX] at hy
  cases pull with
  | error e =>
    have hcat : (createProject cfg (.error e) create start attempt input newId now cat
        vault).catalog = saveProject
        { id := newId, name := input.name, slug := resolvedSlug input.slug input.name,
          status := ProjectStatus.error, containerName := "", port := 0,
          domain := resolvedSlug input.slug input.name ++ "." ++ cfg.baseDomain,
          updatedAt := now } (saveProject
        { id := newId, name := input.name, slug := resolvedSlug input.slug input.name,
          status := ProjectStatus.creating, containerName := "", port := 0,
          domain := resolvedSlug input.slug input.name ++ "." ++ cfg.baseDomain,
          updatedAt := now } cat) := by
      simp [createProject, hno]
    refine ⟨_, rfl, rfl, hcat, ?_, Or.inl ⟨⟨e, ?_⟩, rfl⟩⟩
    · rw [hcat]
      exact hself _ _ rfl
    · simp [createProject, hno]
  | ok u =>
    cases create with
    | error e =>
      have hcat : (createProject cfg (.ok u) (.error e) start attempt input newId now cat
          vault).catalog = saveProject
          { id := newId, name := input.name, slug := resolvedSlug input.slug input.name,
            status := ProjectStatus.error, containerName := "", port := 0,
            domain := resolvedSlug input.slug input.name ++ "." ++ cfg.baseDomain,
            updatedAt := now } (saveProject
          { id := newId, name := input.name, slug := resolvedSlug input.slug input.name,
            status := ProjectStatus.creating, containerName := "", port := 0,
            domain := resolvedSlug input.slug input.name ++ "." ++ cfg.baseDomain,
            updatedAt := now } cat) := by
        simp [createProject, hno]
      refine ⟨_, rfl, rfl, hcat, ?_, Or.inl ⟨⟨e, ?_⟩, rfl⟩⟩
      · rw [hcat]
        exact hself _ _ rfl
      · simp [createProject, hno]
    | ok cres =>
      cases start with
      | error e =>
        have hcat : (createProject cfg (.ok u) (.ok cres) (.error e) attempt input newId now cat
            vault).catalog = saveProject
            { id := newId, name := input.name, slug := resolvedSlug input.slug input.name,
              status := ProjectStatus.error, containerName := cres.containerName,
              port := cres.port,
              domain := resolvedSlug input.slug input.name ++ "." ++ cfg.baseDomain,
              updatedAt := now } (saveProject
            { id := newId, name := input.name, slug := resolvedSlug input.slug input.name,
              status := ProjectStatus.creating, containerName := "", port := 0,
              domain := resolvedSlug input.slug input.name ++ "." ++ cfg.baseDomain,
              updatedAt := now } cat) := by
          simp [createProject, hno]
        refine ⟨_, rfl, rfl, hcat, ?_, Or.inl ⟨⟨e, ?_⟩, rfl⟩⟩
        · rw [hcat]
          exact hself _ _ rfl
        · simp [createProject, hno]
      | ok u2 =>
        rcases hb : bootstrapPoll attempt 0 10 with ⟨f, n⟩
        have hcat : (createProject cfg (.ok u) (.ok cres) (.ok u2) attempt input newId now cat
            vault).catalog = saveProject
            { id := newId, name := input.name, slug := resolvedSlug input.slug input.name,
              status := ProjectStatus.running, containerName := cres.containerName,
              port := cres.port,
              domain := resolvedSlug input.slug input.name ++ "." ++ cfg.baseDomain,
              updatedAt := now } (saveProject
            { id := newId, name := input.name, slug := resolvedSlug input.slug input.name,
              status := ProjectStatus.creating, containerName := "", port := 0,
              domain := resolvedSlug input.slug input.name ++ "." ++ cfg.baseDomain,
              updatedAt := now } cat) := by
          cases f with
          | error e2 => simp [createProject, hno, hb]
          | ok u3 => simp [createProject, hno, hb]
        refine ⟨_, rfl, rfl, hcat, ?_, Or.inr ⟨?_, rfl⟩⟩
        · rw [hcat]
          exact hself _ _ rfl
        · cases f with
          | error e2 => simp [createProject, hno, hb]
          | ok u3 => simp [createProject, hno, hb]


/-! ## C3 counterexample, amended theorem, witness -/

/-- C3 (counterexample): a create whose slug matches only a soft-deleted
(status `deleted`) project record DOES conflict — `getProjectBySlug` applies
no status filter, so the conflict check also fires on `deleted` records,
contrary to the claim. -/
theorem createProject_conflict_on_deleted_cx :
    (⟨"p1", "Acme", "acme", .deleted, "", 0, "acme.localhost", 0⟩ : Project).status =
      ProjectStatus.deleted ∧
    (createProject ⟨"localhost", false, "admin@localhost"⟩ (.ok ())
      (.ok ⟨"pocketbase-acme", 8090⟩) (.ok ()) (fun _ => .ok ())
      ⟨"Acme Two", some "acme"⟩ "p2" 1
      [⟨"p1", "Acme", "acme", .deleted, "", 0, "acme.localhost", 0⟩] []).result =
      .error (.conflict "acme") :=
  ⟨rfl, rfl⟩

/-- C3 (amended): createProject fails with a conflict error exactly when the
requested (or derived) slug already exists among ALL recorded projects —
soft-deleted records included, not only non-deleted ones; consequently, for
accepted creations, slugs remain pairwise distinct across the whole catalog
(hence in particular among non-deleted projects). -/
theorem createProject_conflict_iff :
    ∀ (cfg : Cfg) (pull : Except Nat Unit) (create : Except Nat ContainerCreateResult)
      (start : Except Nat Unit) (attempt : Nat → Except Nat Unit)
      (input : CreateProjectInput) (newId : String) (now : Nat)
      (cat : Catalog) (vault : Vault),
      ((createProject cfg pull create start attempt input newId now cat vault).result =
          .error (.conflict (resolvedSlug input.slug input.name)) ↔
        ∃ p ∈ cat, p.slug = resolvedSlug input.slug input.name) ∧
      ((cat.map (fun p => p.slug)).Nodup → (∀ q ∈ cat, q.id ≠ newId) →
        (((createProject cfg pull create start attempt input newId now cat
            vault).catalog).map (fun p => p.slug)).Nodup) := by
  intro cfg pull create start attempt input newId now cat vault
  cases hbs : getProjectBySlug (resolvedSlug input.slug input.name) cat with
  | some q =>
    have hresult : (createProject cfg pull create start attempt input newId now cat
        vault).result = .error (.conflict (resolvedSlug input.slug input.name)) := by
      simp [createProject, hbs]
    have hcat : (createProject cfg pull create start attempt input newId now cat
        vault).catalog = cat := by
      simp [createProject, hbs]
    constructor
    · rw [hresult]
      constructor
      · intro _
        refine ⟨q, List.mem_of_find?_eq_some hbs, ?_⟩
        simpa using List.find?_some hbs
      · intro _
        rfl
    · intro hnod _
      rw [hcat]
      exact hnod
  | none =>
    have hnomem : ∀ p ∈ cat, p.slug ≠ resolvedSlug input.slug input.name := by
      intro p hp
      have hx := List.find?_eq_none.mp hbs p hp
      simpa using hx
    constructor
    · constructor
      · intro hres
        exfalso
        cases pull with
        | error e => simp [createProject, hbs] at hres
        | ok u =>
          cases create with
          | error e => simp [createProject, hbs] at hres
          | ok cres =>
            cases start with
            | error e => simp [createProject, hbs] at hres
            | ok u2 =>
              rcases hb : bootstrapPoll attempt 0 10 with ⟨f, n⟩
              cases f with
              | error e => simp [createProject, hbs, hb] at hres
              | ok u3 => simp [createProject, hbs, hb] at hres
      · rintro ⟨p, hp, hslug⟩
        exact absurd hslug (hnomem p hp)
    · intro hnod hfresh
      obtain ⟨X, hXid, hXslug, hXcat, _, _⟩ :=
        createProject_shape cfg pull create start attempt input newId now cat vault hbs
      rw [hXcat]
      rw [getProject_saveProject_fresh (Project.mk newId input.name
        (resolvedSlug input.slug input.name) ProjectStatus.creating "" 0
        (resolvedSlug input.slug input.name ++ "." ++ cfg.baseDomain) now) cat hfresh]
      rw [saveProject_append_same_id X (Project.mk newId input.name
        (resolvedSlug input.slug input.name) ProjectStatus.creating "" 0
        (resolvedSlug input.slug input.name ++ "." ++ cfg.baseDomain) now) hXid cat hfresh]
      rw [List.map_append, List.nodup_append]
      refine ⟨hnod, by simp, ?_⟩
      intro a ha hb2
      simp only [List.map_cons, List.map_nil, List.mem_singleton] at hb2
      obtain ⟨p, hp, hps⟩ := List.mem_map.mp ha
      exact hnomem p hp (by rw [hps, hb2, hXslug])

/-- Witness for C3 (amended): an accepted creation on an empty catalog keeps
the slug list duplicate-free. -/
theorem createProject_conflict_iff_witness :
    (((createProject ⟨"localhost", false, "admin@localhost"⟩ (.ok ())
      (.ok ⟨"pocketbase-acme", 8090⟩) (.ok ()) (fun _ => .ok ())
      ⟨"Acme", some "acme"⟩ "p1" 1 [] []).catalog).map (fun p => p.slug)).Nodup :=
  (createProject_conflict_iff ⟨"localhost", false, "admin@localhost"⟩ (.ok ())
    (.ok ⟨"pocketbase-acme", 8090⟩) (.ok ()) (fun _ => .ok ())
    ⟨"Acme", some "acme"⟩ "p1" 1 [] []).2 (by simp) (by simp)

/-! ## C6 theorem and witness -/

/-- C6: if image pull, container creation, or container start throws during
the create workflow, createProject re-raises that same error, and whenever a
runtime error is raised the persisted record for the new project has status
`error`; when createProject returns successfully the persisted record has
status `running`; in every non-conflicting outcome the record is never left
at `creating`. -/
theorem createProject_failure_sets_error :
    ∀ (cfg : Cfg) (pull : Except Nat Unit) (create : Except Nat ContainerCreateResult)
      (start : Except Nat Unit) (attempt : Nat → Except Nat Unit)
      (input : CreateProjectInput) (newId : String) (now : Nat)
      (cat : Catalog) (vault : Vault),
      getProjectBySlug (resolvedSlug input.slug input.name) cat = none →
      (∀ e, pull = .error e →
        (createProject cfg pull create start attempt input newId now cat vault).result =
          .error (.docker e)) ∧
      (∀ e u, pull = .ok u → create = .error e →
        (createProject cfg pull create start attempt input newId now cat vault).result =
          .error (.docker e)) ∧
      (∀ e u cres, pull = .ok u → create = .ok cres → start = .error e →
        (createProject cfg pull create start attempt input newId now cat vault).result =
          .error (.docker e)) ∧
      (∀ e, (createProject cfg pull create start attempt input newId now cat vault).result =
          .error (.docker e) →
        ∃ q, getProject newId
          (createProject cfg pull create start attempt input newId now cat vault).catalog =
            some q ∧ q.status = ProjectStatus.error) ∧
      (∀ r, (createProject cfg pull create start attempt input newId now cat vault).result =
          .ok r →
        ∃ q, getProject newId
          (createProject cfg pull create start attempt input newId now cat vault).catalog =
            some q ∧ q.status = ProjectStatus.running) ∧
      (∀ q, getProject newId
          (createProject cfg pull create start attempt input newId now cat vault).catalog =
            some q →
        q.status ≠ ProjectStatus.creating) := by
  intro cfg pull create start attempt input newId now cat vault hno
  obtain ⟨X, hXid, hXslug, hXcat, hget, hdisj⟩ :=
    createProject_shape cfg pull create start attempt input newId now cat vault hno
  refine ⟨?_, ?_, ?_, ?_, ?_, ?_⟩
  · rintro e rfl
    simp [createProject, hno]
  · rintro e u rfl rfl
    simp [createProject, hno]
  · rintro e u cres rfl rfl rfl
    simp [createProject, hno]
  · intro e hres
    rcases hdisj with ⟨_, hstat⟩ | ⟨hok, _⟩
    · exact ⟨X, hget, hstat⟩
    · rw [hres] at hok
      exact Except.noConfusion hok
  · intro r hres
    rcases hdisj with ⟨⟨e, he⟩, _⟩ | ⟨_, hstat⟩
    · rw [hres] at he
      exact Except.noConfusion he
    · exact ⟨X, hget, hstat⟩
  · intro q hq
    have hXq : X = q := Option.some.inj (hget.symm.trans hq)
    subst hXq
    rcases hdisj with ⟨_, hstat⟩ | ⟨_, hstat⟩ <;> rw [hstat] <;> decide

/-- Witness for C6: a failing image pull on an empty catalog re-raises the
same error token. -/
theorem createProject_failure_sets_error_witness :
    (createProject ⟨"localhost", false, "admin@localhost"⟩ (.error 3)
      (.ok ⟨"pocketbase-acme", 8090⟩) (.ok ()) (fun _ => .ok ())
      ⟨"Acme", some "acme"⟩ "p1" 0 [] []).result = .error (.docker 3) :=
  ((createProject_failure_sets_error ⟨"localhost", false, "admin@localhost"⟩ (.error 3)
    (.ok ⟨"pocketbase-acme", 8090⟩) (.ok ()) (fun _ => .ok ())
    ⟨"Acme", some "acme"⟩ "p1" 0 [] [] rfl).1 3 rfl)

/-! ## C7 theorem and witness -/

/-- C7: the post-start bootstrap phase issues at most 10 attempts; if every
attempt fails, createProject still returns the project with status `running`
(never throwing, `error` never set) and the vault is unchanged; on the first
successful attempt (the failure of all earlier ones) the credentials are
stored in the vault and polling stops after that attempt. -/
theorem createProject_bootstrap_spec :
    ∀ (cfg : Cfg) (u u2 : Unit) (cres : ContainerCreateResult)
      (attempt : Nat → Except Nat Unit) (input : CreateProjectInput)
      (newId : String) (now : Nat) (cat : Catalog) (vault : Vault),
      getProjectBySlug (resolvedSlug input.slug input.name) cat = none →
      (createProject cfg (.ok u) (.ok cres) (.ok u2) attempt input newId now cat
        vault).attempts ≤ 10 ∧
      ((∀ i, i < 10 → ∃ e, attempt i = .error e) →
        (createProject cfg (.ok u) (.ok cres) (.ok u2) attempt input newId now cat
          vault).attempts = 10 ∧
        (createProject cfg (.ok u) (.ok cres) (.ok u2) attempt input newId now cat
          vault).vault = vault ∧
        ∃ r, (createProject cfg (.ok u) (.ok cres) (.ok u2) attempt input newId now cat
          vault).result = .ok r ∧ r.status = ProjectStatus.running) ∧
      (∀ j, j < 10 → attempt j = .ok () → (∀ i, i < j → ∃ e, attempt i = .error e) →
        (createProject cfg (.ok u) (.ok cres) (.ok u2) attempt input newId now cat
          vault).attempts = j + 1 ∧
        (createProject cfg (.ok u) (.ok cres) (.ok u2) attempt input newId now cat
          vault).vault = storeCredentials
          { projectId := newId, projectName := input.name,
            projectSlug := resolvedSlug input.slug input.name,
            domain := resolvedSlug input.slug input.name ++ "." ++ cfg.baseDomain,
            adminEmail := cfg.adminEmail } vault ∧
        ∃ r, (createProject cfg (.ok u) (.ok cres) (.ok u2) attempt input newId now cat
          vault).result = .ok r ∧ r.status = ProjectStatus.running) := by
  intro cfg u u2 cres attempt input newId now cat vault hno
  refine ⟨?_, ?_, ?_⟩
  · rcases hb : bootstrapPoll attempt 0 10 with ⟨f, n⟩
    have hc := bootstrapPoll_count_le attempt 10 0
    rw [hb] at hc
    have hn : n ≤ 10 := by simpa using hc
    cases f with
    | error e =>
      have hh : (createProject cfg (.ok u) (.ok cres) (.ok u2) attempt input newId now cat
          vault).attempts = n := by
        simp [createProject, hno, hb]
      rw [hh]
      exact hn
    | ok u3 =>
      have hh : (createProject cfg (.ok u) (.ok cres) (.ok u2) attempt input newId now cat
          vault).attempts = n := by
        simp [createProject, hno, hb]
      rw [hh]
      exact hn
  · intro hall
    obtain ⟨e, he⟩ := bootstrapPoll_all_fail attempt 10 0 (by omega)
      (fun i h1 h2 => hall i (by omega))
    refine ⟨?_, ?_, ?_⟩
    · simp [createProject, hno, he]
    · simp [createProject, hno, he]
    · exact ⟨Project.mk newId input.name (resolvedSlug input.slug input.name)
        ProjectStatus.running cres.containerName cres.port
        (resolvedSlug input.slug input.name ++ "." ++ cfg.baseDomain) now,
        by simp [createProject, hno, he], rfl⟩
  · intro j hj hok hfail
    have hpoll : bootstrapPoll attempt 0 10 = (.ok (), 0 + j + 1) :=
      bootstrapPoll_first_ok attempt j 10 0 hj (by simpa using hok)
        (fun i hi => by simpa using hfail i hi)
    refine ⟨?_, ?_, ?_⟩
    · simp [createProject, hno, hpoll]
    · simp [createProject, hno, hpoll]
    · exact ⟨Project.mk newId input.name (resolvedSlug input.slug input.name)
        ProjectStatus.running cres.containerName cres.port
        (resolvedSlug input.slug input.name ++ "." ++ cfg.baseDomain) now,
        by simp [createProject, hno, hpoll], rfl⟩

/-- Witness for C7: with every bootstrap exec failing, the concrete create
still succeeds after exactly 10 attempts. -/
theorem createProject_bootstrap_spec_witness :
    (createProject ⟨"localhost", false, "admin@localhost"⟩ (.ok ())
      (.ok ⟨"pocketbase-acme", 8090⟩) (.ok ()) (fun _ => .error 5)
      ⟨"Acme", some "acme"⟩ "p1" 0 [] []).attempts = 10 :=
  ((createProject_bootstrap_spec ⟨"localhost", false, "admin@localhost"⟩ () ()
    ⟨"pocketbase-acme", 8090⟩ (fun _ => .error 5) ⟨"Acme", some "acme"⟩ "p1" 0 [] []
    rfl).2.1 (fun _ _ => ⟨5, rfl⟩)).1

end MultiProjectServer
